import Mathlib

/-!
Verification development for the document-editor backend (`src/main.py`).

The repository is a Flask CRUD service over a MongoDB collection of
documents.  We shallowly embed the pieces the specification talks about:

* `sanitize_content` — the source calls `bleach.clean(content, tags.., attributes..)`.
  We model the library call as an HTML5-style token machine: tokenize the
  input, keep allow-listed tags (filtering their attributes by the per-tag
  allow-list from the source, including the `href`/`src` protocol check that
  `bleach` applies), escape disallowed tags into text, and re-serialize with
  entity escaping.  Tree-construction normalizations of the underlying HTML
  parser (implicit end tags, misnesting repair) and exotic named character
  references are not modelled; token-level allow-listing, attribute
  filtering and escaping are.
* the five API handlers — modelled as pure functions over an explicit
  `Store` state (the MongoDB collection plus an object-id counter and the
  ambient UTC clock, which strictly advances between persistence calls).
-/

namespace Editor

/-! ## Character helpers -/

def isSpaceC (c : Char) : Bool :=
  c = ' ' || c = '\t' || c = '\n' || c = '\r' || c = '\x0c'

/-- ASCII lower-casing, as html5lib applies to tag and attribute names. -/
def lowerChar (c : Char) : Char :=
  if c.isUpper then Char.ofNat (c.toNat + 32) else c

def isHexDigitC (c : Char) : Bool :=
  c.isDigit || decide (97 ≤ c.toNat ∧ c.toNat ≤ 102) || decide (65 ≤ c.toNat ∧ c.toNat ≤ 70)

def hexDigitVal (c : Char) : Nat :=
  if c.isDigit then c.toNat - 48
  else if 97 ≤ c.toNat ∧ c.toNat ≤ 102 then c.toNat - 87
  else if 65 ≤ c.toNat ∧ c.toNat ≤ 70 then c.toNat - 55
  else 0

/-! ## HTML tokens -/

/-- Tokens produced by the HTML tokenizer: text characters, start tags with
their attribute list (name/value pairs), and end tags. -/
inductive HTok where
  | txt (c : Char)
  | startTag (nm : String) (attrs : List (String × String))
  | endTag (nm : String)
deriving DecidableEq, Repr

/-- Character-reference decoding: the XML core named references plus numeric
references; anything else is left (and later re-escaped) as literal text. -/
def decodeEnt (acc : List Char) : Option Char :=
  if acc = ['l', 't'] then some '<'
  else if acc = ['g', 't'] then some '>'
  else if acc = ['a', 'm', 'p'] then some '&'
  else if acc = ['q', 'u', 'o', 't'] then some '"'
  else
    match acc with
    | '#' :: rest =>
      let n? : Option Nat :=
        match rest with
        | 'x' :: hs =>
          if hs ≠ [] ∧ hs.all isHexDigitC then
            some (hs.foldl (fun a c => a * 16 + hexDigitVal c) 0)
          else none
        | _ =>
          if rest ≠ [] ∧ rest.all Char.isDigit then
            some (rest.foldl (fun a c => a * 10 + (c.toNat - 48)) 0)
          else none
      match n? with
      | some n => if n.isValidChar then some (Char.ofNat n) else none
      | none => none
    | _ => none

/-- Is `c` allowed to extend the character-reference accumulator `acc`? -/
def isEntChar (acc : List Char) (c : Char) : Bool :=
  c.isAlphanum || (acc.isEmpty && c = '#')

/-- Kind of attribute-value quoting currently being parsed. -/
inductive VKind where
  | dq
  | sq
  | unq
deriving DecidableEq, Repr

/-- Tokenizer modes, following the HTML5 tokenizer states that matter for
the fragment grammar `bleach` feeds to its sanitizer filter. -/
inductive Mode where
  | data
  | charRef (acc : List Char)
  | tagOpen
  | endTagOpen
  | tagName (closing : Bool) (nm : List Char)
  | endTagRest (nm : List Char)
  | beforeAttrName (nm : List Char) (attrs : List (String × String))
  | attrName (nm : List Char) (attrs : List (String × String)) (an : List Char)
  | afterAttrName (nm : List Char) (attrs : List (String × String)) (an : List Char)
  | beforeAttrValue (nm : List Char) (attrs : List (String × String)) (an : List Char)
  | attrVal (k : VKind) (nm : List Char) (attrs : List (String × String))
      (an : List Char) (av : List Char)
  | charRefVal (k : VKind) (nm : List Char) (attrs : List (String × String))
      (an : List Char) (av : List Char) (acc : List Char)
  | afterAttrValQ (nm : List Char) (attrs : List (String × String))
  | markupDecl
  | commentDash1
  | comment (dashes : Nat)
  | bogus
deriving DecidableEq, Repr

def pushAttr (attrs : List (String × String)) (an av : List Char) :
    List (String × String) :=
  attrs ++ [(String.mk an, String.mk av)]

/-- One data-mode step of the tokenizer. -/
def stepData (c : Char) : List HTok × Mode :=
  if c = '<' then ([], .tagOpen)
  else if c = '&' then ([], .charRef [])
  else ([.txt c], .data)

/-- One attribute-value step of the tokenizer (for each quoting kind). -/
def stepVal (k : VKind) (nm : List Char) (attrs : List (String × String))
    (an av : List Char) (c : Char) : List HTok × Mode :=
  match k with
  | .dq =>
    if c = '"' then ([], .afterAttrValQ nm (pushAttr attrs an av))
    else if c = '&' then ([], .charRefVal .dq nm attrs an av [])
    else ([], .attrVal .dq nm attrs an (av ++ [c]))
  | .sq =>
    if c = '\'' then ([], .afterAttrValQ nm (pushAttr attrs an av))
    else if c = '&' then ([], .charRefVal .sq nm attrs an av [])
    else ([], .attrVal .sq nm attrs an (av ++ [c]))
  | .unq =>
    if isSpaceC c then ([], .beforeAttrName nm (pushAttr attrs an av))
    else if c = '>' then ([.startTag (String.mk nm) (pushAttr attrs an av)], .data)
    else if c = '&' then ([], .charRefVal .unq nm attrs an av [])
    else ([], .attrVal .unq nm attrs an (av ++ [c]))

/-- One step of the tokenizer: emitted tokens plus the next mode. -/
def step : Mode → Char → List HTok × Mode
  | .data, c => stepData c
  | .charRef acc, c =>
    if c = ';' then
      match decodeEnt acc with
      | some ch => ([.txt ch], .data)
      | none => ((('&' :: acc) ++ [';']).map .txt, .data)
    else if isEntChar acc c then ([], .charRef (acc ++ [c]))
    else ((('&' :: acc).map .txt) ++ (stepData c).1, (stepData c).2)
  | .tagOpen, c =>
    if c.isAlpha then ([], .tagName false [lowerChar c])
    else if c = '/' then ([], .endTagOpen)
    else if c = '!' then ([], .markupDecl)
    else if c = '?' then ([], .bogus)
    else ([.txt '<'] ++ (stepData c).1, (stepData c).2)
  | .endTagOpen, c =>
    if c.isAlpha then ([], .tagName true [lowerChar c])
    else if c = '>' then ([], .data)
    else ([], .bogus)
  | .tagName closing nm, c =>
    if isSpaceC c then ([], if closing then .endTagRest nm else .beforeAttrName nm [])
    else if c = '/' then ([], if closing then .endTagRest nm else .beforeAttrName nm [])
    else if c = '>' then
      (if closing then [.endTag (String.mk nm)] else [.startTag (String.mk nm) []], .data)
    else ([], .tagName closing (nm ++ [lowerChar c]))
  | .endTagRest nm, c =>
    if c = '>' then ([.endTag (String.mk nm)], .data) else ([], .endTagRest nm)
  | .beforeAttrName nm attrs, c =>
    if isSpaceC c || c = '/' then ([], .beforeAttrName nm attrs)
    else if c = '>' then ([.startTag (String.mk nm) attrs], .data)
    else ([], .attrName nm attrs [lowerChar c])
  | .attrName nm attrs an, c =>
    if isSpaceC c then ([], .afterAttrName nm attrs an)
    else if c = '=' then ([], .beforeAttrValue nm attrs an)
    else if c = '>' then ([.startTag (String.mk nm) (pushAttr attrs an [])], .data)
    else if c = '/' then ([], .beforeAttrName nm (pushAttr attrs an []))
    else ([], .attrName nm attrs (an ++ [lowerChar c]))
  | .afterAttrName nm attrs an, c =>
    if isSpaceC c then ([], .afterAttrName nm attrs an)
    else if c = '=' then ([], .beforeAttrValue nm attrs an)
    else if c = '>' then ([.startTag (String.mk nm) (pushAttr attrs an [])], .data)
    else if c = '/' then ([], .beforeAttrName nm (pushAttr attrs an []))
    else ([], .attrName nm (pushAttr attrs an []) [lowerChar c])
  | .beforeAttrValue nm attrs an, c =>
    if isSpaceC c then ([], .beforeAttrValue nm attrs an)
    else if c = '"' then ([], .attrVal .dq nm attrs an [])
    else if c = '\'' then ([], .attrVal .sq nm attrs an [])
    else if c = '>' then ([.startTag (String.mk nm) (pushAttr attrs an [])], .data)
    else if c = '&' then ([], .charRefVal .unq nm attrs an [] [])
    else ([], .attrVal .unq nm attrs an [c])
  | .attrVal k nm attrs an av, c => stepVal k nm attrs an av c
  | .charRefVal k nm attrs an av acc, c =>
    if c = ';' then
      match decodeEnt acc with
      | some ch => ([], .attrVal k nm attrs an (av ++ [ch]))
      | none => ([], .attrVal k nm attrs an (av ++ ('&' :: acc) ++ [';']))
    else if isEntChar acc c then ([], .charRefVal k nm attrs an av (acc ++ [c]))
    else stepVal k nm attrs an (av ++ ('&' :: acc)) c
  | .afterAttrValQ nm attrs, c =>
    if isSpaceC c || c = '/' then ([], .beforeAttrName nm attrs)
    else if c = '>' then ([.startTag (String.mk nm) attrs], .data)
    else ([], .attrName nm attrs [lowerChar c])
  | .markupDecl, c =>
    if c = '-' then ([], .commentDash1)
    else if c = '>' then ([], .data)
    else ([], .bogus)
  | .commentDash1, c =>
    if c = '-' then ([], .comment 0)
    else if c = '>' then ([], .data)
    else ([], .bogus)
  | .comment d, c =>
    if c = '-' then ([], .comment (d + 1))
    else if c = '>' ∧ 2 ≤ d then ([], .data)
    else ([], .comment 0)
  | .bogus, c =>
    if c = '>' then ([], .data) else ([], .bogus)

/-- Run the tokenizer over a character list from a given mode. -/
def runM : Mode → List Char → List HTok × Mode
  | m, [] => ([], m)
  | m, c :: cs =>
    let r := step m c
    let r2 := runM r.2 cs
    (r.1 ++ r2.1, r2.2)

/-- Tokens flushed at end of input, per mode. -/
def finishMode : Mode → List HTok
  | .charRef acc => ('&' :: acc).map .txt
  | .tagOpen => [.txt '<']
  | .endTagOpen => [.txt '<', .txt '/']
  | _ => []

/-- Tokenize a character list. -/
def tokChars (cs : List Char) : List HTok :=
  (runM .data cs).1 ++ finishMode (runM .data cs).2

/-! ## The allow-lists from `sanitize_content` in `src/main.py` -/

def allowed_tags : List String :=
  ["p", "h1", "h2", "h3", "h4", "h5", "h6", "strong", "em", "u", "s", "code",
   "pre", "ul", "ol", "li", "blockquote", "a", "br", "span", "img", "table",
   "thead", "tbody", "tr", "th", "td", "hr", "div"]

/-- Per-tag attribute allow-list (the dict in `sanitize_content`). -/
def tagSpecificAttrs (t : String) : List String :=
  if t = "a" then ["href", "title", "target", "rel"]
  else if t = "img" then ["src", "alt", "title", "width", "height"]
  else if t = "span" then ["style", "class"]
  else if t = "div" then ["class", "style"]
  else if t = "code" then ["class"]
  else if t = "pre" then ["class"]
  else []

/-- Attributes allowed on tag `t`: its own list plus the wildcard entry. -/
def allowedAttrsFor (t : String) : List String :=
  tagSpecificAttrs t ++ ["class", "id"]

/-- The scheme of a URI-valued attribute: the (lower-cased) characters before
the first `:`, provided that colon occurs before any `/`, `?` or `#`. -/
def schemeAux (acc : List Char) : List Char → Option (List Char)
  | [] => none
  | c :: cs =>
    if c = ':' then some acc
    else if c = '/' || c = '?' || c = '#' then none
    else schemeAux (acc ++ [lowerChar c]) cs

/-- Protocol allow-listing that `bleach` applies to `href`/`src` values
(default protocols `http`, `https`, `mailto`; relative URIs allowed). -/
def protocolAllowed (v : String) : Bool :=
  match schemeAux [] v.data with
  | none => true
  | some sch => sch = "http".data || sch = "https".data || sch = "mailto".data

/-- Keep attribute `a` on tag `t`? Name must be allow-listed for `t`, and
URI-valued attributes must carry an allowed protocol. -/
def keepAttr (t : String) (a : String × String) : Bool :=
  decide (a.1 ∈ allowedAttrsFor t) &&
    (if a.1 = "href" || a.1 = "src" then protocolAllowed a.2 else true)

/-- Raw rendering of an attribute, used when a disallowed tag is escaped
back into text (as `bleach` does with its default `strip=False`). -/
def renderAttrRaw (a : String × String) : List Char :=
  ' ' :: a.1.data ++ '=' :: '"' :: a.2.data ++ ['"']

/-- Sanitizer filter on one token: allowed tags keep their allow-listed
attributes; disallowed tags are escaped into plain text. -/
def filterTok : HTok → List HTok
  | .txt c => [.txt c]
  | .startTag nm attrs =>
    if nm ∈ allowed_tags then [.startTag nm (attrs.filter (keepAttr nm))]
    else ('<' :: nm.data ++ attrs.flatMap renderAttrRaw ++ ['>']).map .txt
  | .endTag nm =>
    if nm ∈ allowed_tags then [.endTag nm]
    else ('<' :: '/' :: nm.data ++ ['>']).map .txt

def sanitizeToks (ts : List HTok) : List HTok :=
  ts.flatMap filterTok

/-! ## Serialization back to a string -/

def escTextChar (c : Char) : List Char :=
  if c = '&' then "&amp;".data
  else if c = '<' then "&lt;".data
  else if c = '>' then "&gt;".data
  else [c]

def escAttrChar (c : Char) : List Char :=
  if c = '&' then "&amp;".data
  else if c = '"' then "&quot;".data
  else [c]

def attrChars (a : String × String) : List Char :=
  ' ' :: a.1.data ++ '=' :: '"' :: a.2.data.flatMap escAttrChar ++ ['"']

def serTokChars : HTok → List Char
  | .txt c => escTextChar c
  | .startTag nm attrs => '<' :: nm.data ++ attrs.flatMap attrChars ++ ['>']
  | .endTag nm => '<' :: '/' :: nm.data ++ ['>']

def serChars (ts : List HTok) : List Char :=
  ts.flatMap serTokChars

/-- Model of `sanitize_content` from `src/main.py`: the single `bleach.clean`
call with the allow-lists above. -/
def sanitize_content (content : String) : String :=
  String.mk (serChars (sanitizeToks (tokChars content.data)))

/-! ## Object ids

`bson.objectid.ObjectId(s)` accepts exactly 24-character hex strings (for
string input) and raises `InvalidId` otherwise; `str(oid)` is the 24-digit
lower-case hex form.  We model the id value as the `Nat` the hex digits
denote, assigned from a store counter (real ObjectIds are unique). -/

def parseObjectId (s : String) : Option Nat :=
  if s.data.length = 24 && s.data.all isHexDigitC then
    some (s.data.foldl (fun a c => a * 16 + hexDigitVal c) 0)
  else none

def hexDigitChar (n : Nat) : Char :=
  if n < 10 then Char.ofNat (48 + n) else Char.ofNat (87 + n)

/-- Lower-case 24-digit hex rendering of an object id (`str(ObjectId)`). -/
def oidToHex (n : Nat) : String :=
  String.mk ((List.range 24).map fun i => hexDigitChar (n / 16 ^ (23 - i) % 16))

/-- The `InvalidId` message raised by `bson` for a malformed id string;
the handlers surface it through their generic `except Exception` arm. -/
def invalidIdMessage (s : String) : String :=
  "'" ++ s ++ "' is not a valid ObjectId, it must be a 12-byte input or a 24-character hex string"

/-! ## Data model -/

/-- A stored document (one MongoDB record of the `documents` collection).
Timestamps are the ambient UTC clock modelled as a `Nat`. -/
structure Doc where
  oid : Nat
  title : String
  content : String
  author : String
  tags : List String
  createdAt : Nat
  updatedAt : Nat
deriving DecidableEq, Repr

/-- The serialized form produced by `serialize_document`: `_id` popped and
rendered as the string field `id`; all other fields unchanged. -/
structure DocOut where
  id : String
  title : String
  content : String
  author : String
  tags : List String
  createdAt : Nat
  updatedAt : Nat
deriving DecidableEq, Repr

def serialize_document (d : Doc) : DocOut :=
  { id := oidToHex d.oid, title := d.title, content := d.content,
    author := d.author, tags := d.tags, createdAt := d.createdAt,
    updatedAt := d.updatedAt }

/-- The JSON body of a create/update request; `none` models an absent key
(`data.get(k)` / `data.get(k, default)`). -/
structure DocInput where
  title : Option String
  content : Option String
  author : Option String
  tags : Option (List String)
deriving DecidableEq, Repr

/-- Python's `not data.get('title')`: true when the key is absent (`None`)
or the value is the empty string.  Whitespace-only strings are truthy. -/
def titleMissing : Option String → Bool
  | none => true
  | some s => s.isEmpty

/-- The persistence state: the document collection, the counter from which
object ids are assigned, and the ambient UTC clock (`datetime.utcnow()`),
which strictly advances between persistence operations. -/
structure Store where
  docs : List Doc
  nextOid : Nat
  now : Nat
deriving DecidableEq, Repr

/-- The uniform response envelope `{success, data?, error?}` plus the HTTP
status code; `ok` has `success=True`, `err` has `success=False`. -/
inductive ApiResult (α : Type) where
  | ok (status : Nat) (data : α)
  | err (status : Nat) (error : String)
deriving DecidableEq, Repr

def ApiResult.success : ApiResult α → Bool
  | .ok _ _ => true
  | .err _ _ => false

/-- Response body of a successful delete: `{"id": document_id}` echoes the
raw path parameter. -/
structure DeleteData where
  id : String
deriving DecidableEq, Repr

/-! ## The five handlers (API routes of `src/main.py`) -/

/-- Descending `updatedAt` order used by `documents.find().sort('updatedAt', -1)`. -/
def updatedDesc (a b : Doc) : Prop :=
  b.updatedAt ≤ a.updatedAt

instance : DecidableRel updatedDesc := fun _ _ => Nat.decLe _ _

instance : IsTotal Doc updatedDesc :=
  ⟨fun a b => (Nat.le_total b.updatedAt a.updatedAt).elim Or.inl Or.inr⟩

instance : IsTrans Doc updatedDesc :=
  ⟨fun _ _ _ hab hbc => Nat.le_trans hbc hab⟩

/-- `GET /api/documents`. -/
def get_documents (s : Store) : ApiResult (List DocOut) × Store :=
  (.ok 200 ((s.docs.insertionSort updatedDesc).map serialize_document), s)

/-- `POST /api/documents`. -/
def create_document (inp : DocInput) (s : Store) : ApiResult DocOut × Store :=
  if titleMissing inp.title then (.err 400 "Title is required", s)
  else
    let d : Doc :=
      { oid := s.nextOid, title := inp.title.getD "",
        content := sanitize_content (inp.content.getD ""),
        author := inp.author.getD "Anonymous", tags := inp.tags.getD [],
        createdAt := s.now, updatedAt := s.now }
    (.ok 201 (serialize_document d),
     { docs := s.docs ++ [d], nextOid := s.nextOid + 1, now := s.now + 1 })

/-- `GET /api/documents/<document_id>`. -/
def get_document (idStr : String) (s : Store) : ApiResult DocOut × Store :=
  match parseObjectId idStr with
  | none => (.err 500 (invalidIdMessage idStr), s)
  | some n =>
    match s.docs.find? (fun d => d.oid == n) with
    | none => (.err 404 "Document not found", s)
    | some d => (.ok 200 (serialize_document d), s)

/-- The record rewrite performed by `update_one`'s `$set`: `title`,
`content`, `tags` and `updatedAt` replaced, `author`/`createdAt` untouched. -/
def applySet (inp : DocInput) (now : Nat) (d : Doc) : Doc :=
  { d with title := inp.title.getD "",
           content := sanitize_content (inp.content.getD ""),
           tags := inp.tags.getD [], updatedAt := now }

/-- `PUT /api/documents/<document_id>`. -/
def update_document (idStr : String) (inp : DocInput) (s : Store) :
    ApiResult DocOut × Store :=
  if titleMissing inp.title then (.err 400 "Title is required", s)
  else
    match parseObjectId idStr with
    | none => (.err 500 (invalidIdMessage idStr), s)
    | some n =>
      match s.docs.find? (fun d => d.oid == n) with
      | none => (.err 404 "Document not found", s)
      | some d =>
        let d' := applySet inp s.now d
        (.ok 200 (serialize_document d'),
         { docs := s.docs.map fun e => if e.oid == n then d' else e,
           nextOid := s.nextOid, now := s.now + 1 })

/-- `DELETE /api/documents/<document_id>`. -/
def delete_document (idStr : String) (s : Store) : ApiResult DeleteData × Store :=
  match parseObjectId idStr with
  | none => (.err 500 (invalidIdMessage idStr), s)
  | some n =>
    if s.docs.any (fun d => d.oid == n) then
      (.ok 200 { id := idStr },
       { docs := s.docs.filter (fun d => !(d.oid == n)),
         nextOid := s.nextOid, now := s.now })
    else (.err 404 "Document not found", s)

/-! ## Request sequences (for the delete-finality claim) -/

/-- One API request (the state-relevant part). -/
inductive Op where
  | createOp (inp : DocInput)
  | updateOp (idStr : String) (inp : DocInput)
  | deleteOp (idStr : String)
  | getOp (idStr : String)
  | listOp
deriving Repr

def applyOp (s : Store) : Op → Store
  | .createOp inp => (create_document inp s).2
  | .updateOp idStr inp => (update_document idStr inp s).2
  | .deleteOp idStr => (delete_document idStr s).2
  | .getOp idStr => (get_document idStr s).2
  | .listOp => (get_documents s).2

def applyOps (s : Store) (ops : List Op) : Store :=
  ops.foldl applyOp s

/-! ## Well-formedness of sanitized token streams

These predicates characterize the tokens `filterTok` can output; they are
what the serializer/tokenizer round trip needs. -/

/-- Characters that the tokenizer accumulates verbatim into a tag name. -/
def nameSafeChar (c : Char) : Bool :=
  !isSpaceC c && c != '/' && c != '>' && lowerChar c == c

/-- Tag names the tokenizer reproduces exactly: non-empty, leading ASCII
letter, all characters lower-case-stable and terminator-free. -/
def tagNameOk (nm : String) : Bool :=
  match nm.data with
  | [] => false
  | c :: cs => c.isAlpha && (c :: cs).all nameSafeChar

/-- Characters that the tokenizer accumulates verbatim into an attribute name. -/
def attrNameSafe (c : Char) : Bool :=
  !isSpaceC c && c != '=' && c != '>' && c != '/' && lowerChar c == c

def attrNameOk (s : String) : Bool :=
  !s.data.isEmpty && s.data.all attrNameSafe

/-- Tokens in the image of `filterTok`: text, or allow-listed tags whose
attribute list is already filtered. -/
def SaneTok : HTok → Prop
  | .txt _ => True
  | .startTag nm attrs => nm ∈ allowed_tags ∧ attrs.filter (keepAttr nm) = attrs
  | .endTag nm => nm ∈ allowed_tags

/-! ## Concrete stores and inputs used by the testable-property claims -/

def emptyStore : Store := ⟨[], 0, 0⟩

def wsInput : DocInput := ⟨some " ", some "", none, none⟩

def c4inp1 : DocInput := ⟨some "first", some "<p>one</p>", none, some []⟩

def c4inp2 : DocInput := ⟨some "second", some "<p>two</p>", none, some []⟩

def c4inp3 : DocInput := ⟨some "third", some "<p>three</p>", none, some []⟩

def c4inp2v2 : DocInput := ⟨some "second", some "<p>two v2</p>", none, some []⟩

/-- Store after creating three documents in sequence and then updating the
second one (the ordering scenario of the spec's testable properties). -/
def c4Store : Store :=
  (update_document (oidToHex 1) c4inp2v2
    (create_document c4inp3
      (create_document c4inp2
        (create_document c4inp1 emptyStore).2).2).2).2

def c8inp : DocInput := ⟨some "T", some "<p>hi</p>", none, some ["a", "b"]⟩

def htmlTitleInput : DocInput :=
  ⟨some "<script>alert(1)</script>", some "<p>c</p>",
   some "<img src=x onerror=alert(1)>", some ["<b>t</b>"]⟩

/-- A one-document store reached by an actual create call (used to witness
the stateful claims at a concrete, reachable state). -/
def oneDocStore : Store :=
  (create_document ⟨some "Doc", some "<p>w</p>", some "Ann", some ["x"]⟩ emptyStore).2

/-- The single document stored in `oneDocStore`. -/
def wDoc : Doc :=
  { oid := 0, title := "Doc", content := "<p>w</p>", author := "Ann",
    tags := ["x"], createdAt := 0, updatedAt := 0 }

/-- Substring check used to state the sanitizer-safety property. -/
def leadsWith : List Char → List Char → Bool
  | [], _ => true
  | _ :: _, [] => false
  | p :: ps, c :: cs => p == c && leadsWith ps cs

def containsSeq (pat : List Char) : List Char → Bool
  | [] => leadsWith pat []
  | c :: cs => leadsWith pat (c :: cs) || containsSeq pat cs

/-- All stored object ids are below the allocation counter (true of every
reachable store; create assigns `nextOid` and increments it). -/
def OidsBounded (s : Store) : Prop :=
  ∀ d ∈ s.docs, d.oid < s.nextOid

/-- No stored document carries object id `n`. -/
def OidAbsent (n : Nat) (s : Store) : Prop :=
  ∀ d ∈ s.docs, d.oid ≠ n

/-! ## Tokenizer run lemmas -/

theorem mk_data (s : String) : String.mk s.data = s := rfl

theorem runM_append (m : Mode) (xs ys : List Char) :
    runM m (xs ++ ys) =
      ((runM m xs).1 ++ (runM (runM m xs).2 ys).1, (runM (runM m xs).2 ys).2) := by
  induction xs generalizing m with
  | nil => simp [runM]
  | cons c cs ih => simp [runM, ih]

theorem nameSafeChar_spec {c : Char} (h : nameSafeChar c = true) :
    isSpaceC c = false ∧ ¬(c = '/') ∧ ¬(c = '>') ∧ lowerChar c = c := by
  simpa [nameSafeChar, Bool.and_eq_true, Bool.not_eq_true', bne_iff_ne,
    beq_iff_eq, and_assoc] using h

theorem attrNameSafe_spec {c : Char} (h : attrNameSafe c = true) :
    isSpaceC c = false ∧ ¬(c = '=') ∧ ¬(c = '>') ∧ ¬(c = '/') ∧ lowerChar c = c := by
  simpa [attrNameSafe, Bool.and_eq_true, Bool.not_eq_true', bne_iff_ne,
    beq_iff_eq, and_assoc] using h

theorem runM_tagName (b : Bool) (nm0 cs : List Char)
    (h : ∀ c ∈ cs, nameSafeChar c = true) :
    runM (.tagName b nm0) cs = ([], .tagName b (nm0 ++ cs)) := by
  induction cs generalizing nm0 with
  | nil => simp [runM]
  | cons c cs ih =>
    obtain ⟨h1, h2, h3, h4⟩ := nameSafeChar_spec (h c (by simp))
    have ih' := ih (nm0 ++ [c]) (fun x hx => h x (by simp [hx]))
    simp [runM, step, h1, h2, h3, h4, ih']

theorem runM_ser_txt (c : Char) : runM .data (escTextChar c) = ([.txt c], .data) := by
  by_cases h1 : c = '&'
  · subst h1; rfl
  by_cases h2 : c = '<'
  · subst h2; rfl
  by_cases h3 : c = '>'
  · subst h3; rfl
  simp [escTextChar, h1, h2, h3, runM, step, stepData]

theorem runM_cons (m : Mode) (c : Char) (cs : List Char) :
    runM m (c :: cs) =
      ((step m c).1 ++ (runM (step m c).2 cs).1, (runM (step m c).2 cs).2) := by
  simp [runM]

theorem runM_escAttr_char (nm : List Char) (attrs : List (String × String))
    (an av : List Char) (c : Char) :
    runM (.attrVal .dq nm attrs an av) (escAttrChar c) =
      ([], .attrVal .dq nm attrs an (av ++ [c])) := by
  by_cases h1 : c = '&'
  · subst h1; rfl
  by_cases h2 : c = '"'
  · subst h2; rfl
  simp [escAttrChar, h1, h2, runM, step, stepVal]

theorem runM_escAttr (nm : List Char) (attrs : List (String × String))
    (an av0 av : List Char) :
    runM (.attrVal .dq nm attrs an av0) (av.flatMap escAttrChar) =
      ([], .attrVal .dq nm attrs an (av0 ++ av)) := by
  induction av generalizing av0 with
  | nil => simp [runM]
  | cons c cs ih =>
    rw [List.flatMap_cons, runM_append, runM_escAttr_char]
    simp [ih]

theorem runM_attrName (nm : List Char) (attrs : List (String × String))
    (an0 cs : List Char) (h : ∀ c ∈ cs, attrNameSafe c = true) :
    runM (.attrName nm attrs an0) cs = ([], .attrName nm attrs (an0 ++ cs)) := by
  induction cs generalizing an0 with
  | nil => simp [runM]
  | cons c cs ih =>
    obtain ⟨h1, h2, h3, h4, h5⟩ := attrNameSafe_spec (h c (by simp))
    have ih' := ih (an0 ++ [c]) (fun x hx => h x (by simp [hx]))
    simp [runM, step, h1, h2, h3, h4, h5, ih']

theorem runM_attrBody (nm : List Char) (attrs : List (String × String))
    (an av : List Char) (hne : an ≠ []) (h : ∀ c ∈ an, attrNameSafe c = true) :
    runM (.beforeAttrName nm attrs)
        (an ++ '=' :: '"' :: (av.flatMap escAttrChar ++ ['"'])) =
      ([], .afterAttrValQ nm (pushAttr attrs an av)) := by
  obtain ⟨c0, an', rfl⟩ := List.exists_cons_of_ne_nil hne
  obtain ⟨h1, h2, h3, h4, h5⟩ := attrNameSafe_spec (h c0 (by simp))
  have hrest : ∀ c ∈ an', attrNameSafe c = true := fun x hx => h x (by simp [hx])
  rw [List.cons_append, runM_cons]
  have hstep : step (.beforeAttrName nm attrs) c0 = ([], .attrName nm attrs [c0]) := by
    simp [step, h1, h3, h4, h5]
  rw [hstep, runM_append, runM_attrName nm attrs [c0] an' hrest]
  have htail : runM (.attrName nm attrs (c0 :: an'))
      ('=' :: '"' :: (av.flatMap escAttrChar ++ ['"'])) =
      ([], .afterAttrValQ nm (pushAttr attrs (c0 :: an') av)) := by
    rw [runM_cons]
    have h6 : step (.attrName nm attrs (c0 :: an')) '=' =
        ([], .beforeAttrValue nm attrs (c0 :: an')) := by
      simp [step, isSpaceC]
    rw [h6, runM_cons]
    have h7 : step (.beforeAttrValue nm attrs (c0 :: an')) '"' =
        ([], .attrVal .dq nm attrs (c0 :: an') []) := by
      simp [step, isSpaceC]
    rw [h7, runM_append, runM_escAttr]
    simp [runM, runM_cons, step, stepVal]
  simp [htail]

theorem runM_attrsTail (nm : List Char) (acc : List (String × String))
    (as : List (String × String)) (h : ∀ a ∈ as, attrNameOk a.1 = true) :
    runM (.afterAttrValQ nm acc) (as.flatMap attrChars ++ ['>']) =
      ([.startTag (String.mk nm) (acc ++ as)], .data) := by
  induction as generalizing acc with
  | nil => simp [runM, step, isSpaceC]
  | cons a as ih =>
    obtain ⟨hne, hsafe⟩ : ¬a.1.data.isEmpty = true ∧ ∀ c ∈ a.1.data, attrNameSafe c = true := by
      simpa [attrNameOk, Bool.and_eq_true] using h a (by simp)
    have hne' : a.1.data ≠ [] := by
      simpa [List.isEmpty_iff] using hne
    have hsplit : (a :: as).flatMap attrChars ++ ['>'] =
        ' ' :: ((a.1.data ++ '=' :: '"' :: (a.2.data.flatMap escAttrChar ++ ['"'])) ++
          (as.flatMap attrChars ++ ['>'])) := by
      simp [attrChars]
    rw [hsplit, runM_cons]
    have hstep : step (.afterAttrValQ nm acc) ' ' = ([], .beforeAttrName nm acc) := by
      simp [step, isSpaceC]
    rw [hstep, runM_append, runM_attrBody nm acc a.1.data a.2.data hne' hsafe]
    have hpush : pushAttr acc a.1.data a.2.data = acc ++ [a] := by
      simp [pushAttr, mk_data]
    simp [hpush, ih (acc ++ [a]) (fun x hx => h x (by simp [hx]))]

theorem tagNameOk_spec {nm : String} (h : tagNameOk nm = true) :
    ∃ c0 rest, nm.data = c0 :: rest ∧ c0.isAlpha = true ∧
      ∀ c ∈ nm.data, nameSafeChar c = true := by
  unfold tagNameOk at h
  rcases hd : nm.data with _ | ⟨c0, rest⟩
  · rw [hd] at h; simp at h
  · rw [hd] at h
    obtain ⟨h1, h2⟩ := by simpa [Bool.and_eq_true, List.all_eq_true] using h
    exact ⟨c0, rest, rfl, h1, by simpa [hd, List.all_eq_true] using h2⟩

theorem runM_chain {m : Mode} {xs ys : List Char} {p q : List HTok × Mode}
    (h1 : runM m xs = p) (h2 : runM p.2 ys = q) :
    runM m (xs ++ ys) = (p.1 ++ q.1, q.2) := by
  rw [runM_append, h1, h2]

theorem runM_cons_of {m : Mode} {c : Char} {cs : List Char} {p q : List HTok × Mode}
    (h1 : step m c = p) (h2 : runM p.2 cs = q) :
    runM m (c :: cs) = (p.1 ++ q.1, q.2) := by
  rw [runM_cons, h1, h2]

theorem runM_ser_endTag (nm : String) (h : tagNameOk nm = true) :
    runM .data (serTokChars (.endTag nm)) = ([.endTag nm], .data) := by
  obtain ⟨c0, rest, hd, halpha, hsafe⟩ := tagNameOk_spec h
  have hlower : lowerChar c0 = c0 := (nameSafeChar_spec (hsafe c0 (by simp [hd]))).2.2.2
  have hrest : ∀ c ∈ rest, nameSafeChar c = true := fun c hc => hsafe c (by simp [hd, hc])
  have hnm : String.mk (c0 :: rest) = nm := by rw [← hd]
  have t3 : step .endTagOpen c0 = ([], .tagName true [c0]) := by
    simp [step, halpha, hlower]
  have t4 : runM (.tagName true [c0]) rest = ([], .tagName true ([c0] ++ rest)) :=
    runM_tagName true [c0] rest hrest
  have t5 : step (.tagName true ([c0] ++ rest)) '>' = ([.endTag nm], .data) := by
    simp [step, isSpaceC, hnm]
  have r5 : runM (.tagName true ([c0] ++ rest)) ['>'] = ([.endTag nm], .data) :=
    runM_cons_of t5 rfl
  have r0 : runM .data ('<' :: '/' :: c0 :: (rest ++ ['>'])) = ([.endTag nm], .data) :=
    runM_cons_of (show step Mode.data '<' = ([], Mode.tagOpen) from rfl)
      (runM_cons_of (show step Mode.tagOpen '/' = ([], Mode.endTagOpen) from rfl)
        (runM_cons_of t3 (runM_chain t4 r5)))
  show runM .data ('<' :: '/' :: nm.data ++ ['>']) = ([.endTag nm], .data)
  rw [hd]
  exact r0

theorem runM_ser_startTag (nm : String) (attrs : List (String × String))
    (h : tagNameOk nm = true) (hattrs : ∀ a ∈ attrs, attrNameOk a.1 = true) :
    runM .data (serTokChars (.startTag nm attrs)) = ([.startTag nm attrs], .data) := by
  obtain ⟨c0, rest, hd, halpha, hsafe⟩ := tagNameOk_spec h
  have hlower : lowerChar c0 = c0 := (nameSafeChar_spec (hsafe c0 (by simp [hd]))).2.2.2
  have hrest : ∀ c ∈ rest, nameSafeChar c = true := fun c hc => hsafe c (by simp [hd, hc])
  have hnm : String.mk (c0 :: rest) = nm := by rw [← hd]
  have t2 : step .tagOpen c0 = ([], .tagName false [c0]) := by
    simp [step, halpha, hlower]
  have t3 : runM (.tagName false [c0]) rest = ([], .tagName false ([c0] ++ rest)) :=
    runM_tagName false [c0] rest hrest
  have rtail : runM (.tagName false ([c0] ++ rest)) (attrs.flatMap attrChars ++ ['>']) =
      ([.startTag nm attrs], .data) := by
    rcases attrs with _ | ⟨a, as⟩
    · have t5 : step (.tagName false ([c0] ++ rest)) '>' = ([.startTag nm []], .data) := by
        simp [step, isSpaceC, hnm]
      exact runM_cons_of t5 rfl
    · obtain ⟨hne, hsafeA⟩ : ¬a.1.data.isEmpty = true ∧
          ∀ c ∈ a.1.data, attrNameSafe c = true := by
        simpa [attrNameOk, Bool.and_eq_true] using hattrs a (by simp)
      have hne' : a.1.data ≠ [] := by simpa [List.isEmpty_iff] using hne
      have hsplit : (a :: as).flatMap attrChars ++ ['>'] =
          ' ' :: ((a.1.data ++ '=' :: '"' :: (a.2.data.flatMap escAttrChar ++ ['"'])) ++
            (as.flatMap attrChars ++ ['>'])) := by
        simp [attrChars]
      have hsp : step (.tagName false ([c0] ++ rest)) ' ' =
          ([], .beforeAttrName ([c0] ++ rest) []) := by
        simp [step, isSpaceC]
      have hbody := runM_attrBody ([c0] ++ rest) [] a.1.data a.2.data hne' hsafeA
      have hpush : pushAttr [] a.1.data a.2.data = [a] := by
        simp [pushAttr, mk_data]
      rw [hpush] at hbody
      have htail := runM_attrsTail ([c0] ++ rest) [a] as
        (fun x hx => hattrs x (by simp [hx]))
      have hmk : String.mk ([c0] ++ rest) = nm := hnm
      rw [hmk] at htail
      rw [hsplit]
      exact runM_cons_of hsp (runM_chain hbody htail)
  have r0 : runM .data ('<' :: c0 :: (rest ++ (attrs.flatMap attrChars ++ ['>']))) =
      ([.startTag nm attrs], .data) :=
    runM_cons_of (show step Mode.data '<' = ([], Mode.tagOpen) from rfl)
      (runM_cons_of t2 (runM_chain t3 rtail))
  show runM .data ('<' :: nm.data ++ attrs.flatMap attrChars ++ ['>']) =
    ([.startTag nm attrs], .data)
  rw [hd]
  have hl : ('<' :: c0 :: rest ++ attrs.flatMap attrChars ++ ['>'] : List Char) =
      '<' :: c0 :: (rest ++ (attrs.flatMap attrChars ++ ['>'])) := by simp
  rw [hl]
  exact r0

/-! ## Sanity of filtered tokens and the round trip -/

theorem allowedTags_ok : ∀ t ∈ allowed_tags, tagNameOk t = true := by decide

theorem allowedAttrs_ok (t : String) : ∀ x ∈ allowedAttrsFor t, attrNameOk x = true := by
  intro x hx
  rcases List.mem_append.mp hx with hx | hx
  · unfold tagSpecificAttrs at hx
    split_ifs at hx
    · exact (by decide :
        ∀ y ∈ ["href", "title", "target", "rel"], attrNameOk y = true) x hx
    · exact (by decide :
        ∀ y ∈ ["src", "alt", "title", "width", "height"], attrNameOk y = true) x hx
    · exact (by decide : ∀ y ∈ ["style", "class"], attrNameOk y = true) x hx
    · exact (by decide : ∀ y ∈ ["class", "style"], attrNameOk y = true) x hx
    · exact (by decide : ∀ y ∈ ["class"], attrNameOk y = true) x hx
    · exact (by decide : ∀ y ∈ ["class"], attrNameOk y = true) x hx
    · simp at hx
  · exact (by decide : ∀ y ∈ ["class", "id"], attrNameOk y = true) x hx

theorem keepAttr_attrNameOk {t : String} {a : String × String}
    (h : keepAttr t a = true) : attrNameOk a.1 = true := by
  have hmem : a.1 ∈ allowedAttrsFor t := by
    have := (Bool.and_eq_true _ _).mp h
    simpa using this.1
  exact allowedAttrs_ok t a.1 hmem

theorem runM_ser_tok (t : HTok) (h : SaneTok t) :
    runM .data (serTokChars t) = ([t], .data) := by
  cases t with
  | txt c => exact runM_ser_txt c
  | startTag nm attrs =>
    obtain ⟨hmem, hfix⟩ := h
    exact runM_ser_startTag nm attrs (allowedTags_ok nm hmem)
      (fun a ha => keepAttr_attrNameOk (List.filter_eq_self.mp hfix a ha))
  | endTag nm => exact runM_ser_endTag nm (allowedTags_ok nm h)

theorem runM_ser (ts : List HTok) (h : ∀ t ∈ ts, SaneTok t) :
    runM .data (serChars ts) = (ts, .data) := by
  induction ts with
  | nil => rfl
  | cons t ts ih =>
    have := runM_chain (runM_ser_tok t (h t (by simp)))
      (ih (fun x hx => h x (by simp [hx])))
    simpa [serChars] using this

theorem tokChars_serChars (ts : List HTok) (h : ∀ t ∈ ts, SaneTok t) :
    tokChars (serChars ts) = ts := by
  rw [tokChars, runM_ser ts h]
  simp [finishMode]

theorem saneTok_of_filterTok {t u : HTok} (hu : u ∈ filterTok t) : SaneTok u := by
  cases t with
  | txt c => simp [filterTok] at hu; subst hu; trivial
  | startTag nm attrs =>
    by_cases hmem : nm ∈ allowed_tags
    · simp [filterTok, hmem] at hu
      subst hu
      exact ⟨hmem, List.filter_eq_self.mpr fun a ha => (List.mem_filter.mp ha).2⟩
    · have heq : filterTok (.startTag nm attrs) =
          ('<' :: nm.data ++ attrs.flatMap renderAttrRaw ++ ['>']).map .txt := by
        simp [filterTok, hmem]
      rw [heq] at hu
      obtain ⟨c, -, rfl⟩ := List.mem_map.mp hu
      trivial
  | endTag nm =>
    by_cases hmem : nm ∈ allowed_tags
    · simp [filterTok, hmem] at hu; subst hu; exact hmem
    · have heq : filterTok (.endTag nm) =
          ('<' :: '/' :: nm.data ++ ['>']).map .txt := by
        simp [filterTok, hmem]
      rw [heq] at hu
      obtain ⟨c, -, rfl⟩ := List.mem_map.mp hu
      trivial

theorem sanitizeToks_sane (ts : List HTok) : ∀ u ∈ sanitizeToks ts, SaneTok u := by
  intro u hu
  obtain ⟨t, -, hmem⟩ := List.mem_flatMap.mp hu
  exact saneTok_of_filterTok hmem

theorem filterTok_fixed {t : HTok} (h : SaneTok t) : filterTok t = [t] := by
  cases t with
  | txt c => rfl
  | startTag nm attrs => simp [filterTok, h.1, h.2]
  | endTag nm => simp [filterTok, show nm ∈ allowed_tags from h]

theorem sanitizeToks_fixed (ts : List HTok) (h : ∀ t ∈ ts, SaneTok t) :
    sanitizeToks ts = ts := by
  induction ts with
  | nil => rfl
  | cons t ts ih =>
    rw [sanitizeToks, List.flatMap_cons, filterTok_fixed (h t (by simp))]
    simpa [sanitizeToks] using ih (fun x hx => h x (by simp [hx]))

/-! ## Claim theorems -/

/-- C6: the sanitizer is idempotent — for all strings `s`,
`sanitize_content (sanitize_content s) = sanitize_content s`. -/
theorem claim_C6_sanitize_idempotent (s : String) :
    sanitize_content (sanitize_content s) = sanitize_content s := by
  have hs : ∀ t ∈ sanitizeToks (tokChars s.data), SaneTok t := sanitizeToks_sane _
  show String.mk (serChars (sanitizeToks (tokChars (sanitize_content s).data))) =
    sanitize_content s
  have hdata : (sanitize_content s).data = serChars (sanitizeToks (tokChars s.data)) := rfl
  rw [hdata, tokChars_serChars _ hs, sanitizeToks_fixed _ hs]
  rfl

/-! ## Handler lemmas -/

theorem titleMissing_false {t : String} (h : t ≠ "") :
    titleMissing (some t) = false := by
  simp only [titleMissing]
  exact Bool.eq_false_iff.mpr fun hc => h ((String.isEmpty_iff t).mp hc)

theorem get_document_state (idStr : String) (s : Store) :
    (get_document idStr s).2 = s := by
  unfold get_document
  split
  · rfl
  · split <;> rfl

theorem applyOp_preserve {s : Store} {n : Nat}
    (hb : OidsBounded s) (hn : n < s.nextOid) (ha : OidAbsent n s) (o : Op) :
    OidsBounded (applyOp s o) ∧ n < (applyOp s o).nextOid ∧
      OidAbsent n (applyOp s o) := by
  cases o with
  | createOp inp =>
    by_cases ht : titleMissing inp.title
    · simpa [applyOp, create_document, ht] using ⟨hb, hn, ha⟩
    · simp only [applyOp, create_document, ht]
      refine ⟨?_, Nat.lt_succ_of_lt hn, ?_⟩
      · intro d hd
        rcases List.mem_append.mp hd with hd | hd
        · exact Nat.lt_succ_of_lt (hb d hd)
        · simp at hd; subst hd; exact Nat.lt_succ_self _
      · intro d hd
        rcases List.mem_append.mp hd with hd | hd
        · exact ha d hd
        · simp at hd; subst hd; exact Nat.ne_of_gt hn
  | updateOp idStr inp =>
    by_cases ht : titleMissing inp.title
    · simpa [applyOp, update_document, ht] using ⟨hb, hn, ha⟩
    · rcases hp : parseObjectId idStr with _ | m
      · simpa [applyOp, update_document, ht, hp] using ⟨hb, hn, ha⟩
      · rcases hf : s.docs.find? (fun d => d.oid == m) with _ | d
        · simpa [applyOp, update_document, ht, hp, hf] using ⟨hb, hn, ha⟩
        · have hd : d ∈ s.docs := List.mem_of_find?_eq_some hf
          have hdocs : (applyOp s (.updateOp idStr inp)).docs =
              s.docs.map fun e => if e.oid == m then applySet inp s.now d else e := by
            simp [applyOp, update_document, ht, hp, hf]
          have hnext : (applyOp s (.updateOp idStr inp)).nextOid = s.nextOid := by
            simp [applyOp, update_document, ht, hp, hf]
          refine ⟨?_, by rw [hnext]; exact hn, ?_⟩
          · intro e he
            rw [hdocs] at he
            obtain ⟨e0, he0, heq⟩ := List.mem_map.mp he
            rw [hnext]
            by_cases hm : e0.oid == m
            · simp only [hm, if_true] at heq
              subst heq
              exact hb d hd
            · simp only [hm] at heq
              rw [if_neg (by simp_all)] at heq
              subst heq
              exact hb e0 he0
          · intro e he
            rw [hdocs] at he
            obtain ⟨e0, he0, heq⟩ := List.mem_map.mp he
            by_cases hm : e0.oid == m
            · simp only [hm, if_true] at heq
              subst heq
              exact ha d hd
            · simp only [hm] at heq
              rw [if_neg (by simp_all)] at heq
              subst heq
              exact ha e0 he0
  | deleteOp idStr =>
    rcases hp : parseObjectId idStr with _ | m
    · simpa [applyOp, delete_document, hp] using ⟨hb, hn, ha⟩
    · by_cases hany : s.docs.any (fun d => d.oid == m) = true
      · have hdocs : (applyOp s (.deleteOp idStr)).docs =
            s.docs.filter fun d => !(d.oid == m) := by
          simp [applyOp, delete_document, hp, hany]
        have hnext : (applyOp s (.deleteOp idStr)).nextOid = s.nextOid := by
          simp [applyOp, delete_document, hp, hany]
        refine ⟨?_, by rw [hnext]; exact hn, ?_⟩
        · intro d hd
          rw [hdocs] at hd
          rw [hnext]
          exact hb d (List.mem_of_mem_filter hd)
        · intro d hd
          rw [hdocs] at hd
          exact ha d (List.mem_of_mem_filter hd)
      · simpa [applyOp, delete_document, hp, hany] using ⟨hb, hn, ha⟩
  | getOp idStr =>
    simpa [applyOp, get_document_state] using ⟨hb, hn, ha⟩
  | listOp =>
    simpa [applyOp, get_documents] using ⟨hb, hn, ha⟩

theorem applyOps_preserve {s : Store} {n : Nat}
    (hb : OidsBounded s) (hn : n < s.nextOid) (ha : OidAbsent n s)
    (ops : List Op) :
    OidsBounded (applyOps s ops) ∧ n < (applyOps s ops).nextOid ∧
      OidAbsent n (applyOps s ops) := by
  induction ops generalizing s with
  | nil => exact ⟨hb, hn, ha⟩
  | cons o ops ih =>
    obtain ⟨hb1, hn1, ha1⟩ := applyOp_preserve hb hn ha o
    simpa [applyOps] using ih hb1 hn1 ha1

theorem find?_none_of_absent {s : Store} {n : Nat} (ha : OidAbsent n s) :
    s.docs.find? (fun d => d.oid == n) = none := by
  rw [List.find?_eq_none]
  intro d hd
  simpa using ha d hd

theorem any_false_of_absent {s : Store} {n : Nat} (ha : OidAbsent n s) :
    s.docs.any (fun d => d.oid == n) = false := by
  rw [List.any_eq_false]
  intro d hd
  simpa using ha d hd

/-- C1: for every create or update request, the content that reaches the
persistence backend — and that is served back in any response — is exactly
`sanitize_content` applied to the submitted content string; raw unsanitized
HTML is never stored or returned as a document's content. -/
theorem claim_C1_content_sanitized :
    (∀ (inp : DocInput) (s : Store), titleMissing inp.title = false →
      ∃ d : Doc,
        create_document inp s =
          (.ok 201 (serialize_document d),
            { docs := s.docs ++ [d], nextOid := s.nextOid + 1, now := s.now + 1 }) ∧
        d.content = sanitize_content (inp.content.getD "") ∧
        (serialize_document d).content = sanitize_content (inp.content.getD "")) ∧
    (∀ (idStr : String) (inp : DocInput) (s : Store) (n : Nat) (d : Doc),
      titleMissing inp.title = false → parseObjectId idStr = some n →
      s.docs.find? (fun e => e.oid == n) = some d →
      (update_document idStr inp s).1 =
        .ok 200 (serialize_document (applySet inp s.now d)) ∧
      (applySet inp s.now d).content = sanitize_content (inp.content.getD "") ∧
      ∀ e ∈ (update_document idStr inp s).2.docs, e.oid = n →
        e.content = sanitize_content (inp.content.getD "")) ∧
    (∀ (idStr : String) (s : Store) (n : Nat) (d : Doc),
      parseObjectId idStr = some n →
      s.docs.find? (fun e => e.oid == n) = some d →
      (get_document idStr s).1 = .ok 200 (serialize_document d) ∧
      (serialize_document d).content = d.content) := by
  refine ⟨?_, ?_, ?_⟩
  · intro inp s ht
    refine ⟨{ oid := s.nextOid, title := inp.title.getD "",
              content := sanitize_content (inp.content.getD ""),
              author := inp.author.getD "Anonymous", tags := inp.tags.getD [],
              createdAt := s.now, updatedAt := s.now }, ?_, rfl, rfl⟩
    simp [create_document, ht]
  · intro idStr inp s n d ht hp hf
    refine ⟨by simp [update_document, ht, hp, hf], rfl, ?_⟩
    intro e he hoid
    have hdocs : (update_document idStr inp s).2.docs =
        s.docs.map fun e => if e.oid == n then applySet inp s.now d else e := by
      simp [update_document, ht, hp, hf]
    rw [hdocs] at he
    obtain ⟨e0, he0, heq⟩ := List.mem_map.mp he
    by_cases hm : e0.oid == n
    · simp only [hm, if_true] at heq
      subst heq
      rfl
    · simp only [hm] at heq
      rw [if_neg (by simp_all)] at heq
      subst heq
      exact absurd hoid (by simpa using hm)
  · intro idStr s n d hp hf
    exact ⟨by simp [get_document, hp, hf], rfl⟩

/-- Witness for C1: a concrete successful create stores and returns the
sanitized content. -/
theorem claim_C1_witness :
    ∃ d : Doc,
      create_document c8inp emptyStore =
        (.ok 201 (serialize_document d),
          { docs := emptyStore.docs ++ [d], nextOid := emptyStore.nextOid + 1,
            now := emptyStore.now + 1 }) ∧
      d.content = sanitize_content (c8inp.content.getD "") ∧
      (serialize_document d).content = sanitize_content (c8inp.content.getD "") :=
  claim_C1_content_sanitized.1 c8inp emptyStore (by decide)

/-- C2 (amended): a create or update whose title is missing or the empty
string fails with 400 "Title is required" and leaves the store unchanged;
the code does not trim, so whitespace-only titles are accepted. -/
theorem claim_C2_title_required (inp : DocInput) (idStr : String) (s : Store)
    (h : inp.title = none ∨ inp.title = some "") :
    create_document inp s = (.err 400 "Title is required", s) ∧
    update_document idStr inp s = (.err 400 "Title is required", s) := by
  have hm : titleMissing inp.title = true := by
    rcases h with h | h <;> rw [h] <;> decide
  exact ⟨by simp [create_document, hm], by simp [update_document, hm]⟩

/-- Counterexample for C2 as stated: the title `" "` is empty after
trimming (it is all whitespace), yet create succeeds with 201 and persists
a record instead of returning 400. -/
theorem claim_C2_counterexample :
    wsInput.title = some " " ∧ (" ").data.all Char.isWhitespace = true ∧
    (create_document wsInput emptyStore).1.success = true ∧
    (create_document wsInput emptyStore).1 ≠ .err 400 "Title is required" ∧
    (create_document wsInput emptyStore).2.docs.length = 1 := by
  decide

/-- Witness for C2 (amended): a concrete missing-title create and update
are rejected without persisting anything. -/
theorem claim_C2_witness :
    create_document ⟨none, some "<p>x</p>", none, none⟩ emptyStore =
      (.err 400 "Title is required", emptyStore) ∧
    update_document (oidToHex 0) ⟨none, some "<p>x</p>", none, none⟩ emptyStore =
      (.err 400 "Title is required", emptyStore) :=
  claim_C2_title_required _ _ _ (Or.inl rfl)

/-- C3 (amended): a syntactically valid id that resolves to no record gives
404 "Document not found" on get, update and delete; a syntactically
malformed id raises `InvalidId` inside the generic handler and is reported
as 500, not 404. -/
theorem claim_C3_id_errors (idStr : String) (s : Store) (n : Nat) (inp : DocInput) :
    (parseObjectId idStr = some n → s.docs.find? (fun d => d.oid == n) = none →
      get_document idStr s = (.err 404 "Document not found", s) ∧
      (titleMissing inp.title = false →
        update_document idStr inp s = (.err 404 "Document not found", s)) ∧
      delete_document idStr s = (.err 404 "Document not found", s)) ∧
    (parseObjectId idStr = none →
      get_document idStr s = (.err 500 (invalidIdMessage idStr), s) ∧
      (titleMissing inp.title = false →
        update_document idStr inp s = (.err 500 (invalidIdMessage idStr), s)) ∧
      delete_document idStr s = (.err 500 (invalidIdMessage idStr), s)) := by
  constructor
  · intro hp hfind
    have hany : s.docs.any (fun d => d.oid == n) = false := by
      rw [List.any_eq_false]
      intro d hd
      have := List.find?_eq_none.mp hfind d hd
      simpa using this
    exact ⟨by simp [get_document, hp, hfind],
      fun ht => by simp [update_document, ht, hp, hfind],
      by simp [delete_document, hp, hany]⟩
  · intro hp
    exact ⟨by simp [get_document, hp],
      fun ht => by simp [update_document, ht, hp],
      by simp [delete_document, hp]⟩

/-- Counterexample for C3 as stated: the malformed id "xyz" is reported as
a 500 with the `InvalidId` description, not as 404 "Document not found". -/
theorem claim_C3_counterexample :
    parseObjectId "xyz" = none ∧
    (get_document "xyz" emptyStore).1 = .err 500 (invalidIdMessage "xyz") ∧
    (get_document "xyz" emptyStore).1 ≠ .err 404 "Document not found" := by
  decide

/-- Witness for C3 (amended): a valid-but-unknown id gets 404; a malformed
id gets 500. -/
theorem claim_C3_witness :
    get_document (oidToHex 5) emptyStore = (.err 404 "Document not found", emptyStore) ∧
    get_document "xyz" emptyStore = (.err 500 (invalidIdMessage "xyz"), emptyStore) :=
  ⟨((claim_C3_id_errors (oidToHex 5) emptyStore 5 c8inp).1 (by decide) (by decide)).1,
   ((claim_C3_id_errors "xyz" emptyStore 0 c8inp).2 (by decide)).1⟩

/-- C4: listing returns all stored documents ordered by `updatedAt`
descending; in the create-create-create-update-second scenario the listing
order is [second, third, first]. -/
theorem claim_C4_list_ordering :
    (∀ s : Store, ∃ l : List Doc,
      get_documents s = (.ok 200 (l.map serialize_document), s) ∧
      l.Perm s.docs ∧ l.Sorted updatedDesc) ∧
    (∃ ds, (get_documents c4Store).1 = .ok 200 ds ∧
      ds.map DocOut.title = ["second", "third", "first"]) := by
  constructor
  · intro s
    exact ⟨s.docs.insertionSort updatedDesc, rfl, List.perm_insertionSort _ _,
      List.sorted_insertionSort _ _⟩
  · exact ⟨_, rfl, by decide⟩

/-- C5: a successful update leaves `author` and `createdAt` exactly as they
were, rewrites only title/content/tags/updatedAt (other documents are
untouched), and `updatedAt` strictly increases. -/
theorem claim_C5_update_frame (s : Store) (idStr : String) (inp : DocInput)
    (n : Nat) (d : Doc)
    (hclock : ∀ e ∈ s.docs, e.updatedAt < s.now)
    (hp : parseObjectId idStr = some n)
    (hf : s.docs.find? (fun e => e.oid == n) = some d)
    (ht : titleMissing inp.title = false) :
    (update_document idStr inp s).1 =
      .ok 200 (serialize_document (applySet inp s.now d)) ∧
    (applySet inp s.now d).author = d.author ∧
    (applySet inp s.now d).createdAt = d.createdAt ∧
    d.updatedAt < (applySet inp s.now d).updatedAt ∧
    (update_document idStr inp s).2.docs =
      s.docs.map fun e => if e.oid == n then applySet inp s.now d else e := by
  refine ⟨by simp [update_document, ht, hp, hf], rfl, rfl, ?_,
    by simp [update_document, ht, hp, hf]⟩
  exact hclock d (List.mem_of_find?_eq_some hf)

/-- Witness for C5: updating the single document of a concrete store keeps
its author and creation time and strictly bumps `updatedAt`. -/
theorem claim_C5_witness :
    (update_document (oidToHex 0) c4inp2v2 oneDocStore).1 =
      .ok 200 (serialize_document (applySet c4inp2v2 oneDocStore.now wDoc)) ∧
    (applySet c4inp2v2 oneDocStore.now wDoc).author = wDoc.author ∧
    (applySet c4inp2v2 oneDocStore.now wDoc).createdAt = wDoc.createdAt ∧
    wDoc.updatedAt < (applySet c4inp2v2 oneDocStore.now wDoc).updatedAt ∧
    (update_document (oidToHex 0) c4inp2v2 oneDocStore).2.docs =
      oneDocStore.docs.map
        fun e => if e.oid == 0 then applySet c4inp2v2 oneDocStore.now wDoc else e :=
  claim_C5_update_frame oneDocStore (oidToHex 0) c4inp2v2 0 wDoc
    (by decide) (by decide) (by decide) (by decide)

/-- C7: the sanitizer is a total function and on
`"<script>alert(1)</script><p>ok</p>"` it produces output with no script
element while preserving the `<p>ok</p>` fragment (the script markup is
escaped into inert text). -/
theorem claim_C7_sanitizer_safety :
    sanitize_content "<script>alert(1)</script><p>ok</p>" =
      "&lt;script&gt;alert(1)&lt;/script&gt;<p>ok</p>" ∧
    containsSeq "<script".data
      (sanitize_content "<script>alert(1)</script><p>ok</p>").data = false ∧
    containsSeq "<p>ok</p>".data
      (sanitize_content "<script>alert(1)</script><p>ok</p>").data = true := by
  decide

/-- C8: creating `{title:"T", content:"<p>hi</p>", tags:["a","b"]}` and then
fetching by the returned id yields the same title, the sanitized content,
and the tags in order. -/
theorem claim_C8_roundtrip :
    ∃ out : DocOut, (create_document c8inp emptyStore).1 = .ok 201 out ∧
      (get_document out.id (create_document c8inp emptyStore).2).1 = .ok 200 out ∧
      out.title = "T" ∧ out.content = sanitize_content "<p>hi</p>" ∧
      out.content = "<p>hi</p>" ∧ out.tags = ["a", "b"] :=
  ⟨_, rfl, by decide, by decide, by decide, by decide, by decide⟩

/-- C9: deleting an existing id returns 200 with the id as confirmation,
and after any further sequence of requests, get/update/delete on that id
all answer 404 (ids are never reused). -/
theorem claim_C9_delete_finality (s : Store) (idStr : String) (n : Nat)
    (hb : OidsBounded s) (hp : parseObjectId idStr = some n)
    (hex : s.docs.any (fun d => d.oid == n) = true) :
    (delete_document idStr s).1 = .ok 200 { id := idStr } ∧
    ∀ ops : List Op,
      (get_document idStr (applyOps (delete_document idStr s).2 ops)).1 =
        .err 404 "Document not found" ∧
      (∀ inp : DocInput, titleMissing inp.title = false →
        (update_document idStr inp (applyOps (delete_document idStr s).2 ops)).1 =
          .err 404 "Document not found") ∧
      (delete_document idStr (applyOps (delete_document idStr s).2 ops)).1 =
        .err 404 "Document not found" := by
  have hresp : (delete_document idStr s).1 = .ok 200 { id := idStr } := by
    simp [delete_document, hp, hex]
  have hstate : (delete_document idStr s).2 =
      { docs := s.docs.filter (fun d => !(d.oid == n)), nextOid := s.nextOid,
        now := s.now } := by
    simp [delete_document, hp, hex]
  refine ⟨hresp, fun ops => ?_⟩
  have hb1 : OidsBounded (delete_document idStr s).2 := by
    rw [hstate]
    intro d hd
    exact hb d (List.mem_of_mem_filter hd)
  have hn1 : n < (delete_document idStr s).2.nextOid := by
    rw [hstate]
    obtain ⟨d, hd, hdn⟩ := List.any_eq_true.mp hex
    have hoid : d.oid = n := by simpa using hdn
    simpa [← hoid] using hb d hd
  have ha1 : OidAbsent n (delete_document idStr s).2 := by
    rw [hstate]
    intro d hd
    have := (List.mem_filter.mp hd).2
    simpa using this
  obtain ⟨hb2, hn2, ha2⟩ := applyOps_preserve hb1 hn1 ha1 ops
  have hfind := find?_none_of_absent ha2
  have hany := any_false_of_absent ha2
  generalize hgen : applyOps (delete_document idStr s).2 ops = s2 at hfind hany ⊢
  refine ⟨?_, fun inp ht => ?_, ?_⟩
  · simp [get_document, hp, hfind]
  · simp [update_document, ht, hp, hfind]
  · simp [delete_document, hp, hany]

/-- Witness for C9: deleting the document of a concrete store answers 200
with the id, and after a further create, get/update/delete on the deleted
id all answer 404. -/
theorem claim_C9_witness :
    (delete_document (oidToHex 0) oneDocStore).1 = .ok 200 { id := oidToHex 0 } ∧
    (get_document (oidToHex 0)
        (applyOps (delete_document (oidToHex 0) oneDocStore).2 [.createOp c8inp])).1 =
      .err 404 "Document not found" ∧
    (update_document (oidToHex 0) c8inp
        (applyOps (delete_document (oidToHex 0) oneDocStore).2 [.createOp c8inp])).1 =
      .err 404 "Document not found" ∧
    (delete_document (oidToHex 0)
        (applyOps (delete_document (oidToHex 0) oneDocStore).2 [.createOp c8inp])).1 =
      .err 404 "Document not found" := by
  have h := claim_C9_delete_finality oneDocStore (oidToHex 0) 0
    (by simp only [OidsBounded]; decide) (by decide) (by decide)
  exact ⟨h.1, (h.2 [.createOp c8inp]).1, (h.2 [.createOp c8inp]).2.1 c8inp (by decide),
    (h.2 [.createOp c8inp]).2.2⟩

/-- C10: only `content` passes through the sanitizer — title, author and
tags are persisted and served back exactly as submitted, so HTML in those
fields reaches storage and responses unmodified. -/
theorem claim_C10_passthrough :
    (∀ (t a : String) (tg : List String) (c : Option String) (s : Store), t ≠ "" →
      ∃ d : Doc,
        create_document ⟨some t, c, some a, some tg⟩ s =
          (.ok 201 (serialize_document d),
            { docs := s.docs ++ [d], nextOid := s.nextOid + 1, now := s.now + 1 }) ∧
        d.title = t ∧ d.author = a ∧ d.tags = tg ∧
        (serialize_document d).title = t ∧ (serialize_document d).author = a ∧
        (serialize_document d).tags = tg) ∧
    (∀ (idStr : String) (t : String) (tg : List String) (c au : Option String)
      (s : Store) (n : Nat) (d : Doc), t ≠ "" →
      parseObjectId idStr = some n → s.docs.find? (fun e => e.oid == n) = some d →
      (update_document idStr ⟨some t, c, au, some tg⟩ s).1 =
        .ok 200 (serialize_document (applySet ⟨some t, c, au, some tg⟩ s.now d)) ∧
      (applySet ⟨some t, c, au, some tg⟩ s.now d).title = t ∧
      (applySet ⟨some t, c, au, some tg⟩ s.now d).tags = tg ∧
      (applySet ⟨some t, c, au, some tg⟩ s.now d).author = d.author) := by
  constructor
  · intro t a tg c s ht
    refine ⟨{ oid := s.nextOid, title := t, content := sanitize_content (c.getD ""),
              author := a, tags := tg, createdAt := s.now, updatedAt := s.now },
      ?_, rfl, rfl, rfl, rfl, rfl, rfl⟩
    simp [create_document, titleMissing_false ht]
  · intro idStr t tg c au s n d ht hp hf
    exact ⟨by simp [update_document, titleMissing_false ht, hp, hf], rfl, rfl, rfl⟩

/-- Witness for C10: a title, author and tag list full of script markup are
stored verbatim by a concrete create. -/
theorem claim_C10_witness :
    ∃ d : Doc,
      create_document ⟨some "<script>alert(1)</script>", some "<p>c</p>",
          some "<img src=x onerror=alert(1)>", some ["<b>t</b>"]⟩ emptyStore =
        (.ok 201 (serialize_document d),
          { docs := emptyStore.docs ++ [d], nextOid := emptyStore.nextOid + 1,
            now := emptyStore.now + 1 }) ∧
      d.title = "<script>alert(1)</script>" ∧
      d.author = "<img src=x onerror=alert(1)>" ∧ d.tags = ["<b>t</b>"] ∧
      (serialize_document d).title = "<script>alert(1)</script>" ∧
      (serialize_document d).author = "<img src=x onerror=alert(1)>" ∧
      (serialize_document d).tags = ["<b>t</b>"] :=
  claim_C10_passthrough.1 "<script>alert(1)</script>" "<img src=x onerror=alert(1)>"
    ["<b>t</b>"] (some "<p>c</p>") emptyStore (by decide)

end Editor
